import Mathlib

/-!
Verification of the concurrent work-distribution core of `cgminer-cpu-btc-core`.

This file gives a shallow embedding, in Lean, of the lock-free work queue
(`src/concurrent_optimization.rs`), the per-device atomic statistics and the
hashrate tracker (`src/device.rs`), the device health check (`src/core.rs`,
`src/device.rs`) and the CPU-affinity assignment (`src/cpu_affinity.rs`),
together with theorems settling the specification claims about them.

Modelling conventions:
* `usize` / `u64` counters updated with `fetch_add` / `fetch_sub` are modelled
  as `Nat` with explicit wrap-around modulo `2 ^ 64` (the queue code targets a
  64-bit machine; `AtomicUsize` and `AtomicU64` wrap on overflow).
* The crossbeam `ArrayQueue` (bounded, FIFO, push fails when full) is a `List`
  together with the capacity; the `SegQueue` (unbounded FIFO) is a `List`.
* `f64` / `f32` values that the code stores as bit patterns inside integer
  atomics are modelled as rationals; the code's "stored bits are zero" test
  is modelled as the value being `0`.  The `f64::exp` primitive is abstracted
  as a function parameter `E` of the throughput-estimator update.
* Wall-clock reads (`SystemTime::now`, `Instant::elapsed`) are passed in as an
  explicit `now` argument; one call of a function observes a single instant.
-/

/-- 64-bit machine-word modulus: `usize` / `u64` arithmetic wraps at this. -/
def WSIZE : Nat := 2 ^ 64

/-- One wrapping increment, the effect of `fetch_add(1)` on a 64-bit atomic. -/
def wrapInc (x : Nat) : Nat := (x + 1) % WSIZE

/-- One wrapping decrement, the effect of `fetch_sub(1)` on a 64-bit atomic. -/
def wrapDec (x : Nat) : Nat := (x + (WSIZE - 1)) % WSIZE

/-- `cgminer_core::Work`: only the fields the queue inspects are modelled
(`id` for identity, `version` for staleness; the header, target and
difficulty are never read by the queue). -/
structure Work where
  id : Nat
  version : Nat
deriving DecidableEq, Repr

/-- `cgminer_core::MiningResult`: opaque payload from the queue's viewpoint. -/
structure MiningResult where
  work_id : Nat
  device_id : Nat
  nonce : Nat
  accepted : Bool
deriving DecidableEq, Repr

/-- `LockFreeWorkQueue` (src/concurrent_optimization.rs, lines 106-121). -/
structure LockFreeWorkQueue where
  pending_work : List Work
  completed_work : List MiningResult
  active_work_count : Nat
  total_enqueued : Nat
  total_dequeued : Nat
  queue_full_count : Nat
  current_work_version : Nat
  max_queue_size : Nat
deriving DecidableEq, Repr

/-- `WorkQueueStats` (src/concurrent_optimization.rs, lines 258-268). -/
structure WorkQueueStats where
  pending_count : Nat
  active_count : Nat
  completed_count : Nat
  total_enqueued : Nat
  total_dequeued : Nat
  queue_full_count : Nat
  current_version : Nat
  max_queue_size : Nat
deriving DecidableEq, Repr

namespace LockFreeWorkQueue

/-- `LockFreeWorkQueue::new` (lines 125-136). -/
def new (max_queue_size : Nat) : LockFreeWorkQueue :=
  { pending_work := []
    completed_work := []
    active_work_count := 0
    total_enqueued := 0
    total_dequeued := 0
    queue_full_count := 0
    current_work_version := 0
    max_queue_size := max_queue_size }

/-- `LockFreeWorkQueue::enqueue_work` (lines 139-153).  `ArrayQueue::push`
succeeds exactly when the queue holds fewer than `max_queue_size` items.
The second component models the `Result`: `none` is `Ok(())`, `some w` is
`Err(w)` returning the rejected work to the caller. -/
def enqueue_work (q : LockFreeWorkQueue) (w : Work) :
    LockFreeWorkQueue × Option Work :=
  if q.pending_work.length < q.max_queue_size then
    ({ q with
        pending_work := q.pending_work ++ [w]
        active_work_count := wrapInc q.active_work_count
        total_enqueued := wrapInc q.total_enqueued }, none)
  else
    ({ q with queue_full_count := wrapInc q.queue_full_count }, some w)

/-- `LockFreeWorkQueue::dequeue_work` (lines 156-165).  `ArrayQueue::pop`
returns the oldest element (FIFO). -/
def dequeue_work (q : LockFreeWorkQueue) : LockFreeWorkQueue × Option Work :=
  match q.pending_work with
  | [] => (q, none)
  | w :: rest =>
      ({ q with
          pending_work := rest
          total_dequeued := wrapInc q.total_dequeued }, some w)

/-- `LockFreeWorkQueue::submit_result` (lines 168-172): unconditionally pushes
the result and decrements the active-work counter with wrapping. -/
def submit_result (q : LockFreeWorkQueue) (r : MiningResult) : LockFreeWorkQueue :=
  { q with
      completed_work := q.completed_work ++ [r]
      active_work_count := wrapDec q.active_work_count }

/-- `LockFreeWorkQueue::get_result` (lines 175-177): pops one completed result. -/
def get_result (q : LockFreeWorkQueue) : LockFreeWorkQueue × Option MiningResult :=
  match q.completed_work with
  | [] => (q, none)
  | r :: rest => ({ q with completed_work := rest }, some r)

/-- `LockFreeWorkQueue::update_work_version` (lines 195-197).
`fetch_add(1, ...)` returns the value held BEFORE the addition. -/
def update_work_version (q : LockFreeWorkQueue) : LockFreeWorkQueue × Nat :=
  ({ q with current_work_version := wrapInc q.current_work_version },
    q.current_work_version)

/-- `LockFreeWorkQueue::current_version` (lines 200-202). -/
def current_version (q : LockFreeWorkQueue) : Nat := q.current_work_version

/-- First phase of `clear_stale_work` (lines 210-217): pop every pending work
in FIFO order; keep (in order) those with `version >= valid_version`, count
the rest.  The count is the number of `fetch_sub(1)` decrements performed. -/
def drainPending (valid_version : Nat) : List Work → List Work × Nat
  | [] => ([], 0)
  | w :: rest =>
      let (kept, cleared) := drainPending valid_version rest
      if valid_version ≤ w.version then (w :: kept, cleared)
      else (kept, cleared + 1)

/-- Second phase of `clear_stale_work` (lines 220-226): re-push the kept works
into the (now empty) bounded queue; a work that does not fit is dropped and
counted as cleared. -/
def reinsertKept (cap : Nat) : List Work → List Work → Nat → List Work × Nat
  | [], acc, extra => (acc, extra)
  | w :: ws, acc, extra =>
      if acc.length < cap then reinsertKept cap ws (acc ++ [w]) extra
      else reinsertKept cap ws acc (extra + 1)

/-- `LockFreeWorkQueue::clear_stale_work` (lines 205-233).  Returns the new
queue and the reported `cleared_count`; the active-work counter receives one
wrapping decrement per cleared work. -/
def clear_stale_work (q : LockFreeWorkQueue) (valid_version : Nat) :
    LockFreeWorkQueue × Nat :=
  let dp := drainPending valid_version q.pending_work
  let ri := reinsertKept q.max_queue_size dp.1 [] 0
  ({ q with
      pending_work := ri.1
      active_work_count := wrapDec^[dp.2 + ri.2] q.active_work_count },
    dp.2 + ri.2)

/-- `LockFreeWorkQueue::get_stats` (lines 236-247). -/
def get_stats (q : LockFreeWorkQueue) : WorkQueueStats :=
  { pending_count := q.pending_work.length
    active_count := q.active_work_count
    completed_count := q.completed_work.length
    total_enqueued := q.total_enqueued
    total_dequeued := q.total_dequeued
    queue_full_count := q.queue_full_count
    current_version := q.current_work_version
    max_queue_size := q.max_queue_size }

end LockFreeWorkQueue

/-- Enqueue a list of works one after the other, collecting each call's
return value (`none` = accepted, `some w` = rejected with the work). -/
def enqueueMany (q : LockFreeWorkQueue) : List Work →
    LockFreeWorkQueue × List (Option Work)
  | [] => (q, [])
  | w :: ws =>
      let step := q.enqueue_work w
      let rest := enqueueMany step.1 ws
      (rest.1, step.2 :: rest.2)

/-- Perform `n` successive dequeues, collecting each call's return value. -/
def dequeueMany (q : LockFreeWorkQueue) : Nat →
    LockFreeWorkQueue × List (Option Work)
  | 0 => (q, [])
  | n + 1 =>
      let step := q.dequeue_work
      let rest := dequeueMany step.1 n
      (rest.1, step.2 :: rest.2)

/-- A single client operation on a `LockFreeWorkQueue`. -/
inductive QOp where
  | enq (w : Work)
  | deq
  | submit (r : MiningResult)
  | take
  | bump
  | purge (v : Nat)
deriving Repr

/-- Effect of one operation on the queue state (outputs discarded). -/
def stepOp (q : LockFreeWorkQueue) : QOp → LockFreeWorkQueue
  | .enq w => (q.enqueue_work w).1
  | .deq => q.dequeue_work.1
  | .submit r => q.submit_result r
  | .take => q.get_result.1
  | .bump => q.update_work_version.1
  | .purge v => (q.clear_stale_work v).1

/-- Number of successful enqueues an operation performs on state `q`. -/
def opE (q : LockFreeWorkQueue) : QOp → Nat
  | .enq _ => if q.pending_work.length < q.max_queue_size then 1 else 0
  | _ => 0

/-- Number of result submissions an operation performs. -/
def opS : QOp → Nat
  | .submit _ => 1
  | _ => 0

/-- Number of works an operation purges from state `q`. -/
def opP (q : LockFreeWorkQueue) : QOp → Nat
  | .purge v => (q.clear_stale_work v).2
  | _ => 0

/-- Run a trace of operations, accumulating the final state together with the
totals of successful enqueues, result submissions and purged works. -/
def runCount (q : LockFreeWorkQueue) : List QOp →
    LockFreeWorkQueue × Nat × Nat × Nat
  | [] => (q, 0, 0, 0)
  | op :: ops =>
      let rest := runCount (stepOp q op) ops
      (rest.1, opE q op + rest.2.1, opS op + rest.2.2.1, opP q op + rest.2.2.2)

/-- `AtomicStats` (src/device.rs, lines 75-97).  The `f64`/`f32` bit-pattern
cells are modelled by their numeric value as a rational (the `u32` truncation
of the power bits at line 164 is not value-relevant here and is elided). -/
structure AtomicStats where
  total_hashes : Nat
  accepted_work : Nat
  rejected_work : Nat
  hardware_errors : Nat
  last_hashrate : ℚ
  average_hashrate : ℚ
  temperature : ℚ
  power_consumption : ℚ
  start_time_nanos : Nat
  last_update_nanos : Nat
  device_id : Nat
deriving DecidableEq, Repr

namespace AtomicStats

/-- `AtomicStats::new` (lines 100-119) at clock reading `now`. -/
def new (device_id : Nat) (now : Nat) : AtomicStats :=
  { total_hashes := 0
    accepted_work := 0
    rejected_work := 0
    hardware_errors := 0
    last_hashrate := 0
    average_hashrate := 0
    temperature := 0
    power_consumption := 0
    start_time_nanos := now
    last_update_nanos := now
    device_id := device_id }

/-- `AtomicStats::record_hashes` (lines 122-132): wrapping `fetch_add` of the
hash count, then a fresh clock reading into `last_update_nanos`. -/
def record_hashes (s : AtomicStats) (hashes : Nat) (now : Nat) : AtomicStats :=
  { s with
      total_hashes := (s.total_hashes + hashes) % WSIZE
      last_update_nanos := now }

/-- `AtomicStats::increment_accepted` (lines 143-145). -/
def increment_accepted (s : AtomicStats) : AtomicStats :=
  { s with accepted_work := wrapInc s.accepted_work }

/-- `AtomicStats::increment_rejected` (lines 148-150). -/
def increment_rejected (s : AtomicStats) : AtomicStats :=
  { s with rejected_work := wrapInc s.rejected_work }

/-- `AtomicStats::increment_hardware_errors` (lines 153-155). -/
def increment_hardware_errors (s : AtomicStats) : AtomicStats :=
  { s with hardware_errors := wrapInc s.hardware_errors }

/-- `AtomicStats::update_temperature` (lines 158-160). -/
def update_temperature (s : AtomicStats) (temp : ℚ) : AtomicStats :=
  { s with temperature := temp }

/-- `AtomicStats::update_power_consumption` (lines 163-165). -/
def update_power_consumption (s : AtomicStats) (power : ℚ) : AtomicStats :=
  { s with power_consumption := power }

/-- `AtomicStats::reset` (lines 199-215) at clock reading `now`. -/
def reset (s : AtomicStats) (now : Nat) : AtomicStats :=
  { s with
      total_hashes := 0
      accepted_work := 0
      rejected_work := 0
      hardware_errors := 0
      last_hashrate := 0
      average_hashrate := 0
      temperature := 0
      power_consumption := 0
      start_time_nanos := now
      last_update_nanos := now }

end AtomicStats

/-- The statistics operations exposed by `AtomicStats`.  Clock-observing
operations carry their `now` reading. -/
inductive StatsOp where
  | recordHashes (n : Nat) (now : Nat)
  | incAccepted
  | incRejected
  | incHwErrors
  | setTemperature (t : ℚ)
  | setPower (p : ℚ)
  | resetStats (now : Nat)

/-- Apply one statistics operation to an `AtomicStats` state. -/
def applyStatsOp (s : AtomicStats) : StatsOp → AtomicStats
  | .recordHashes n now => s.record_hashes n now
  | .incAccepted => s.increment_accepted
  | .incRejected => s.increment_rejected
  | .incHwErrors => s.increment_hardware_errors
  | .setTemperature t => s.update_temperature t
  | .setPower p => s.update_power_consumption p
  | .resetStats now => s.reset now

/-- `HashrateTracker` (src/device.rs, lines 1219-1235).  Timestamps are
nanoseconds since the tracker's `start_time`; the four decaying averages are
`f64` bit cells modelled as rationals with `0` standing for "stored bits are
zero", i.e. not yet seeded. -/
structure HashrateTracker where
  total_hashes : Nat
  last_update_time : Nat
  avg_5s : ℚ
  avg_1m : ℚ
  avg_5m : ℚ
  avg_15m : ℚ
  accepted_shares : Nat
  rejected_shares : Nat
  hardware_errors : Nat
deriving DecidableEq, Repr

namespace HashrateTracker

/-- `HashrateTracker::add_hashes` (lines 1255-1257): wrapping `fetch_add`. -/
def add_hashes (t : HashrateTracker) (hashes : Nat) : HashrateTracker :=
  { t with total_hashes := (t.total_hashes + hashes) % WSIZE }

/-- `HashrateTracker::update_ema` (lines 1299-1309): a cell whose stored bits
are zero is seeded with the current value before the decay step. -/
def update_ema (old_bits current_value alpha : ℚ) : ℚ :=
  let old_value := if old_bits = 0 then current_value else old_bits
  old_value + alpha * (current_value - old_value)

/-- `HashrateTracker::update_averages` (lines 1260-1297), with the float
exponential abstracted as `E` and the single instant `now_nanos` standing for
both `start_time.elapsed()` reads inside the call. -/
def update_averages (E : ℚ → ℚ) (t : HashrateTracker) (now_nanos : Nat) :
    HashrateTracker :=
  if now_nanos ≤ t.last_update_time then t
  else
    let elapsed_secs : ℚ := ((now_nanos - t.last_update_time : Nat) : ℚ) / 1000000000
    if elapsed_secs < 1 / 10 then t
    else
      let total_elapsed : ℚ := (now_nanos : ℚ) / 1000000000
      if total_elapsed ≤ 0 then t
      else
        let current_hashrate : ℚ := (t.total_hashes : ℚ) / total_elapsed
        { t with
            avg_5s := update_ema t.avg_5s current_hashrate (1 - E (-elapsed_secs / 5))
            avg_1m := update_ema t.avg_1m current_hashrate (1 - E (-elapsed_secs / 60))
            avg_5m := update_ema t.avg_5m current_hashrate (1 - E (-elapsed_secs / 300))
            avg_15m := update_ema t.avg_15m current_hashrate (1 - E (-elapsed_secs / 900))
            last_update_time := now_nanos }

end HashrateTracker

/-- `cgminer_core::DeviceStatus`: the variants this crate inspects
(`matches!(status, Running | Idle)` at src/device.rs line 1197); `Error`
stands for any of the remaining non-healthy variants of the external enum. -/
inductive DeviceStatus where
  | Uninitialized
  | Idle
  | Running
  | Error
deriving DecidableEq, Repr

/-- Inputs of `SoftwareDevice::health_check` (src/device.rs, lines 1192-1210):
the device status, the optional temperature reading carried by the stats
snapshot, and the stats' error rate (`DeviceStats::error_rate()` of the
external core crate). -/
structure DeviceHealthView where
  status : DeviceStatus
  temperature : Option ℚ
  error_rate : ℚ
deriving DecidableEq, Repr

/-- `SoftwareDevice::health_check` (src/device.rs, lines 1192-1210). -/
def device_health_check (d : DeviceHealthView) : Bool :=
  let status_ok :=
    match d.status with
    | .Running => true
    | .Idle => true
    | _ => false
  let temp_ok :=
    match d.temperature with
    | some temp => decide (temp < 90)
    | none => true
  let error_rate_ok := decide (d.error_rate < 1 / 10)
  status_ok && temp_ok && error_rate_ok

/-- `SoftwareMiningCore::health_check` (src/core.rs, lines 768-783): count the
devices whose own health check returns `true`, then compare against the
threshold `(device_count + 1) / 2`. -/
def core_health_check (devices : List DeviceHealthView) : Bool :=
  let healthy_devices := devices.countP (fun d => device_health_check d)
  decide ((devices.length + 1) / 2 ≤ healthy_devices)

/-- The result-delivery state of one `SoftwareDevice`: its work queue, whether
a `result_sender` channel was wired at construction, and the list of results
sent through that channel so far. -/
structure DeviceResultState where
  work_queue : LockFreeWorkQueue
  has_result_sender : Bool
  sent_results : List MiningResult
deriving DecidableEq, Repr

/-- `SoftwareDevice::get_result` (src/device.rs, lines 1024-1050), with the
mining computation `mine_work` abstracted as the function `mine` (it is
randomized and hash-based; only which result it yields matters here).  The
code dequeues a work, mines it, sends a found result through the channel when
one is wired, and returns the mining outcome unconditionally. -/
def SoftwareDevice_get_result (mine : Work → Option MiningResult)
    (d : DeviceResultState) : DeviceResultState × Option MiningResult :=
  let dq := d.work_queue.dequeue_work
  match dq.2 with
  | some w =>
      let result := mine w
      let sent :=
        if d.has_result_sender then
          match result with
          | some mining_result => d.sent_results ++ [mining_result]
          | none => d.sent_results
        else d.sent_results
      ({ work_queue := dq.1
         has_result_sender := d.has_result_sender
         sent_results := sent }, result)
  | none => ({ d with work_queue := dq.1 }, none)

/-- The fields of `SoftwareDevice` that `stop` touches (src/device.rs,
lines 961-994): the atomic stop flag, the status cell and the work queue.
Aborting the tokio task handle has no effect on this state. -/
structure DeviceCtl where
  mining_stop_signal : Bool
  status : DeviceStatus
  work_queue : LockFreeWorkQueue
deriving DecidableEq, Repr

/-- `SoftwareDevice::stop` (src/device.rs, lines 961-994): raise the stop
flag, abort the mining task, set the status to `Idle`, then call
`clear_stale_work(0)` on the work queue. -/
def SoftwareDevice_stop (d : DeviceCtl) : DeviceCtl :=
  { mining_stop_signal := true
    status := .Idle
    work_queue := (d.work_queue.clear_stale_work 0).1 }

/-- `CpuAffinityStrategy` (src/cpu_affinity.rs, lines 116-129); the manual
`HashMap<u32, usize>` is modelled as a lookup function. -/
inductive CpuAffinityStrategy where
  | RoundRobin
  | Manual (mapping : Nat → Option Nat)
  | PerformanceFirst
  | PhysicalCoresOnly
  | Intelligent
  | LoadBalanced

/-- `CpuAffinityManager::assign_cpu_core` (src/cpu_affinity.rs,
lines 182-264).  `available_cores` is the manager's core-id list,
`physical_cpu_count` the value of `get_physical_cpu_count()`; the recording of
the returned core into `device_core_mapping` does not affect the returned
value and is elided.  In-range indexing is modelled with `getD`. -/
def assign_cpu_core (enabled : Bool) (available_cores : List Nat)
    (physical_cpu_count : Nat) (strategy : CpuAffinityStrategy)
    (device_id : Nat) : Option Nat :=
  if !enabled then none
  else if available_cores.isEmpty then none
  else
    let core_id :=
      match strategy with
      | .RoundRobin =>
          available_cores.getD (device_id % available_cores.length) 0
      | .Manual mapping =>
          match mapping device_id with
          | some core_index =>
              if core_index < available_cores.length then
                available_cores.getD core_index 0
              else
                available_cores.getD (device_id % available_cores.length) 0
          | none =>
              available_cores.getD (device_id % available_cores.length) 0
      | .PerformanceFirst =>
          let perf_core_count := available_cores.length / 2
          available_cores.getD (device_id % (max perf_core_count 1)) 0
      | .PhysicalCoresOnly =>
          let physical_cores :=
            (available_cores.enum.filter (fun p => p.1 % 2 == 0)).map Prod.snd
          if physical_cores.isEmpty then
            available_cores.getD (device_id % available_cores.length) 0
          else
            physical_cores.getD (device_id % physical_cores.length) 0
      | .Intelligent =>
          if 4 ≤ physical_cpu_count ∧ device_id < physical_cpu_count then
            available_cores.getD ((device_id * 2) % available_cores.length) 0
          else
            available_cores.getD (device_id % available_cores.length) 0
      | .LoadBalanced =>
          available_cores.getD (device_id % available_cores.length) 0
    some core_id

/-! ### Helper lemmas -/

lemma wsize_pos : 0 < WSIZE := by norm_num [WSIZE]

lemma wrapInc_eq_of_lt {a : Nat} (h : a + 1 < WSIZE) : wrapInc a = a + 1 :=
  Nat.mod_eq_of_lt h

lemma wrapInc_lt (a : Nat) : wrapInc a < WSIZE :=
  Nat.mod_lt _ wsize_pos

lemma natCast_wrapInc (a : Nat) : ((wrapInc a : Nat) : ZMod WSIZE) = a + 1 := by
  show (((a + 1) % WSIZE : Nat) : ZMod WSIZE) = (a : ZMod WSIZE) + 1
  rw [ZMod.natCast_mod]
  push_cast
  ring

lemma natCast_wrapDec (a : Nat) : ((wrapDec a : Nat) : ZMod WSIZE) = a - 1 := by
  show (((a + (WSIZE - 1)) % WSIZE : Nat) : ZMod WSIZE) = (a : ZMod WSIZE) - 1
  rw [ZMod.natCast_mod, Nat.cast_add, Nat.cast_sub (by norm_num [WSIZE] : 1 ≤ WSIZE)]
  rw [ZMod.natCast_self]
  ring

lemma natCast_wrapDec_iterate (k a : Nat) :
    ((wrapDec^[k] a : Nat) : ZMod WSIZE) = a - k := by
  induction k generalizing a with
  | zero => simp
  | succ k ih =>
      rw [Function.iterate_succ_apply, ih, natCast_wrapDec]
      push_cast
      ring

/-! ### C5: version bump (corrected) -/

/-- C5: `update_work_version` advances the generation counter by one (mod
`2 ^ 64`) but, being a `fetch_add`, RETURNS THE PREVIOUS VALUE: the call
returns the counter value `n` held before the call, and `current_version`
immediately afterwards equals `(n + 1) % 2 ^ 64`, one more than the returned
value (this is the amended form of the claim, which said the call returns
`n + 1`). -/
theorem c5_bump_version_returns_old (q : LockFreeWorkQueue) :
    q.update_work_version.2 = q.current_work_version ∧
    q.update_work_version.1.current_work_version
      = (q.current_work_version + 1) % WSIZE ∧
    LockFreeWorkQueue.current_version q.update_work_version.1
      = (q.update_work_version.2 + 1) % WSIZE :=
  ⟨rfl, rfl, rfl⟩

/-- C5 counterexample: on a fresh queue (counter `0`), `update_work_version`
returns `0`, not the new version `1`; `current_version` right after the call
is `1`, which differs from the returned value, refuting the claim as stated. -/
theorem c5_bump_version_cex :
    ((LockFreeWorkQueue.new 4).update_work_version.2 = 0 ∧
      LockFreeWorkQueue.current_version (LockFreeWorkQueue.new 4).update_work_version.1 = 1) ∧
    LockFreeWorkQueue.current_version (LockFreeWorkQueue.new 4).update_work_version.1
      ≠ (LockFreeWorkQueue.new 4).update_work_version.2 := by
  refine ⟨⟨rfl, ?_⟩, ?_⟩ <;> decide

/-! ### C3: stop does not purge stale work (code bug) -/

/-- A reachable queue holding one job of version `0` while the current work
version is `1`: enqueue at version 0, then bump the version. -/
def c3_stale_queue : LockFreeWorkQueue :=
  (((LockFreeWorkQueue.new 4).enqueue_work ⟨7, 0⟩).1.update_work_version).1

/-- A running device owning that queue. -/
def c3_device : DeviceCtl :=
  { mining_stop_signal := false, status := .Running, work_queue := c3_stale_queue }

/-- C3, evaluated at the failing input: after `stop()` the pending queue still
holds the job of version `0` although the queue's current version is `1` —
`stop` calls `clear_stale_work(0)`, which removes only jobs with version `< 0`,
i.e. nothing, so stale pending work survives `stop` (the code's own comment
says it clears the old work). -/
theorem c3_stop_leaves_stale_work :
    (SoftwareDevice_stop c3_device).work_queue.pending_work = [⟨7, 0⟩] ∧
    LockFreeWorkQueue.current_version (SoftwareDevice_stop c3_device).work_queue = 1 ∧
    ((SoftwareDevice_stop c3_device).work_queue.pending_work.filter
        (fun w => w.version <
          LockFreeWorkQueue.current_version (SoftwareDevice_stop c3_device).work_queue)).length
      = 1 := by
  refine ⟨?_, ?_, ?_⟩ <;> decide

/-! ### C7: majority health check (confirmed) -/

/-- C7: the Aggregator's `health_check` returns `true` exactly when at least
half of its devices individually report healthy, where one device reports
healthy exactly when its status is `Running` or `Idle`, its temperature —
when a reading exists — is below `90`, and its error rate is below `1/10`. -/
theorem c7_health_check_majority (devices : List DeviceHealthView) :
    (core_health_check devices = true ↔
      devices.length ≤ 2 * devices.countP (fun d => device_health_check d)) ∧
    ∀ d : DeviceHealthView,
      device_health_check d = true ↔
        ((d.status = .Running ∨ d.status = .Idle) ∧
          (∀ t : ℚ, d.temperature = some t → t < 90) ∧
          d.error_rate < 1 / 10) := by
  constructor
  · unfold core_health_check
    simp only [decide_eq_true_eq]
    omega
  · intro d
    obtain ⟨st, temp, er⟩ := d
    cases st <;> cases temp <;>
      simp [device_health_check]

/-- C7 witness: two of three devices healthy (the second has a non-healthy
status), so the core reports healthy. -/
theorem c7_health_check_majority_witness :
    core_health_check
      [⟨.Running, some 50, 0⟩, ⟨.Error, none, 0⟩, ⟨.Idle, none, 1 / 20⟩] = true :=
  (c7_health_check_majority
      [⟨.Running, some 50, 0⟩, ⟨.Error, none, 0⟩, ⟨.Idle, none, 1 / 20⟩]).1.mpr
    (by norm_num [device_health_check, List.countP_cons])

/-! ### C9: round-robin and load-balanced affinity agree (confirmed) -/

/-- C9: with affinity enabled and a non-empty core list, the round-robin
strategy assigns the core at index `device_id % core_count`, and the
load-balanced strategy returns exactly the same core for every device id and
every physical-core count. -/
theorem c9_round_robin_load_balanced (cores : List Nat)
    (physical_cpu_count device_id : Nat) (h : cores ≠ []) :
    assign_cpu_core true cores physical_cpu_count .RoundRobin device_id
      = some (cores.getD (device_id % cores.length) 0) ∧
    assign_cpu_core true cores physical_cpu_count .LoadBalanced device_id
      = assign_cpu_core true cores physical_cpu_count .RoundRobin device_id := by
  have hne : cores.isEmpty = false := by
    simpa [List.isEmpty_iff] using h
  constructor <;> simp [assign_cpu_core, hne]

/-- C9 witness: cores `[3, 5, 7]`, device id `4`: both strategies pick
index `4 % 3 = 1`, i.e. core `5`. -/
theorem c9_round_robin_load_balanced_witness :
    assign_cpu_core true [3, 5, 7] 8 .RoundRobin 4 = some 5 ∧
    assign_cpu_core true [3, 5, 7] 8 .LoadBalanced 4
      = assign_cpu_core true [3, 5, 7] 8 .RoundRobin 4 := by
  have h := c9_round_robin_load_balanced [3, 5, 7] 8 4 (by decide)
  exact ⟨h.1.trans (by decide), h.2⟩

/-! ### C2: purge of stale work (confirmed) -/

lemma drainPending_eq (v : Nat) (l : List Work) :
    LockFreeWorkQueue.drainPending v l =
      (l.filter (fun w => decide (v ≤ w.version)),
        (l.filter (fun w => decide (w.version < v))).length) := by
  induction l with
  | nil => rfl
  | cons w rest ih =>
      simp only [LockFreeWorkQueue.drainPending, ih]
      by_cases h : v ≤ w.version
      · have h2 : ¬ w.version < v := by omega
        simp [h, h2]
      · have h2 : w.version < v := by omega
        simp [h, h2]

lemma reinsertKept_fits (cap : Nat) (ws : List Work) :
    ∀ (acc : List Work) (extra : Nat), acc.length + ws.length ≤ cap →
      LockFreeWorkQueue.reinsertKept cap ws acc extra = (acc ++ ws, extra) := by
  induction ws with
  | nil => intro acc extra _; simp [LockFreeWorkQueue.reinsertKept]
  | cons w ws ih =>
      intro acc extra h
      have hlt : acc.length < cap := by
        simp only [List.length_cons] at h; omega
      rw [LockFreeWorkQueue.reinsertKept, if_pos hlt, ih (acc ++ [w]) extra
        (by simp only [List.length_cons] at h; simp only [List.length_append,
          List.length_cons, List.length_nil]; omega)]
      simp

lemma reinsertKept_count (cap : Nat) (ws : List Work) :
    ∀ (acc : List Work) (extra : Nat),
      (LockFreeWorkQueue.reinsertKept cap ws acc extra).1.length
          + (LockFreeWorkQueue.reinsertKept cap ws acc extra).2
        = acc.length + ws.length + extra := by
  induction ws with
  | nil => intro acc extra; simp [LockFreeWorkQueue.reinsertKept]
  | cons w ws ih =>
      intro acc extra
      by_cases h : acc.length < cap <;>
        simp [LockFreeWorkQueue.reinsertKept, h, ih] <;> omega

lemma filter_version_split (v : Nat) (l : List Work) :
    (l.filter (fun w => decide (v ≤ w.version))).length
        + (l.filter (fun w => decide (w.version < v))).length
      = l.length := by
  induction l with
  | nil => rfl
  | cons w rest ih =>
      by_cases h : v ≤ w.version
      · have h2 : ¬ w.version < v := by omega
        simp [h, h2, ih]; omega
      · have h2 : w.version < v := by omega
        simp [h, h2, ih]; omega

/-- C2: on any queue whose pending store respects its capacity (which every
reachable `ArrayQueue` does), `clear_stale_work(v)` leaves pending exactly the
jobs with `version ≥ v`, in order, so each of them is retrievable by a later
dequeue, and returns exactly the number of jobs with `version < v`.  On every
state — even an over-full one — kept plus counted-as-purged jobs account for
all pending jobs: nothing is silently lost. -/
theorem c2_purge_stale (q : LockFreeWorkQueue) (v : Nat) :
    (q.pending_work.length ≤ q.max_queue_size →
      (q.clear_stale_work v).1.pending_work
          = q.pending_work.filter (fun w => decide (v ≤ w.version)) ∧
      (q.clear_stale_work v).2
          = (q.pending_work.filter (fun w => decide (w.version < v))).length ∧
      ∀ w ∈ q.pending_work, v ≤ w.version →
        w ∈ (q.clear_stale_work v).1.pending_work) ∧
    (q.clear_stale_work v).1.pending_work.length + (q.clear_stale_work v).2
        = q.pending_work.length := by
  have hdp := drainPending_eq v q.pending_work
  constructor
  · intro hcap
    have hkept : (q.pending_work.filter (fun w => decide (v ≤ w.version))).length
        ≤ q.max_queue_size :=
      le_trans (List.length_filter_le _ _) hcap
    have hri := reinsertKept_fits q.max_queue_size
      (q.pending_work.filter (fun w => decide (v ≤ w.version))) [] 0
      (by simpa using hkept)
    refine ⟨?_, ?_, ?_⟩
    · simp [LockFreeWorkQueue.clear_stale_work, hdp, hri]
    · simp [LockFreeWorkQueue.clear_stale_work, hdp, hri]
    · intro w hw hv
      simp only [LockFreeWorkQueue.clear_stale_work, hdp, hri]
      simp [List.mem_filter, hw, hv]
  · have hcount := reinsertKept_count q.max_queue_size
      (q.pending_work.filter (fun w => decide (v ≤ w.version))) [] 0
    have hsplit := filter_version_split v q.pending_work
    simp only [LockFreeWorkQueue.clear_stale_work, hdp]
    simp only [List.length_nil] at hcount
    omega

/-- C2 witness: pending `[version 0, version 3]`, capacity 2, purge below
version 2: the version-0 job is removed and counted, the version-3 job stays
retrievable. -/
theorem c2_purge_stale_witness :
    (({ LockFreeWorkQueue.new 2 with
          pending_work := [⟨1, 0⟩, ⟨2, 3⟩] }).clear_stale_work 2).1.pending_work
        = [⟨2, 3⟩] ∧
    (({ LockFreeWorkQueue.new 2 with
          pending_work := [⟨1, 0⟩, ⟨2, 3⟩] }).clear_stale_work 2).2 = 1 := by
  have h := (c2_purge_stale
    { LockFreeWorkQueue.new 2 with pending_work := [⟨1, 0⟩, ⟨2, 3⟩] } 2).1
    (by decide)
  exact ⟨h.1.trans (by decide), h.2.1.trans (by decide)⟩

/-! ### C8: hash counter monotone except reset (corrected) -/

/-- C8 (amended): the total-hash counter is monotonically non-decreasing under
every statistics operation other than the explicit reset PROVIDED the 64-bit
counter does not overflow; `record_hashes(n)` adds exactly `n` under that
proviso (in general it stores `(old + n) % 2 ^ 64`), `reset` is the only
operation that sets the counter back to zero, and the tracker-side
`add_hashes` behaves like `record_hashes`. -/
theorem c8_hash_counter_monotone (s : AtomicStats) (op : StatsOp)
    (t : HashrateTracker) :
    (∀ n now, op = .recordHashes n now → s.total_hashes + n < WSIZE →
      (applyStatsOp s op).total_hashes = s.total_hashes + n) ∧
    ((∀ now, op ≠ .resetStats now) →
      (∀ n now, op = .recordHashes n now → s.total_hashes + n < WSIZE) →
      s.total_hashes ≤ (applyStatsOp s op).total_hashes) ∧
    (∀ now, (applyStatsOp s (.resetStats now)).total_hashes = 0) ∧
    (∀ n, t.total_hashes + n < WSIZE →
      (t.add_hashes n).total_hashes = t.total_hashes + n) := by
  refine ⟨?_, ?_, fun _ => rfl, ?_⟩
  · intro n now hop hlt
    subst hop
    simp [applyStatsOp, AtomicStats.record_hashes, Nat.mod_eq_of_lt hlt]
  · intro hnr hov
    cases op with
    | recordHashes n now =>
        have := hov n now rfl
        simp [applyStatsOp, AtomicStats.record_hashes, Nat.mod_eq_of_lt this]
    | incAccepted => exact le_refl _
    | incRejected => exact le_refl _
    | incHwErrors => exact le_refl _
    | setTemperature _ => exact le_refl _
    | setPower _ => exact le_refl _
    | resetStats now => exact absurd rfl (hnr now)
  · intro n hlt
    simp [HashrateTracker.add_hashes, Nat.mod_eq_of_lt hlt]

/-- C8 counterexample: `record_hashes` is a wrapping `fetch_add`, so from a
counter at `2 ^ 64 - 1` a further `record_hashes(2 ^ 64 - 1)` strictly
DECREASES the stored counter (to `2 ^ 64 - 2`), refuting unconditional
monotonicity; the first call also shows the involved states are reachable
from a fresh `AtomicStats` by statistics operations alone. -/
theorem c8_hash_counter_cex :
    (((AtomicStats.new 0 0).record_hashes (WSIZE - 1) 0).record_hashes
          (WSIZE - 1) 0).total_hashes
      < ((AtomicStats.new 0 0).record_hashes (WSIZE - 1) 0).total_hashes := by
  decide

/-- C8 witness: a non-reset operation (`increment_accepted`) never decreases
the counter, and `record_hashes 5` from `0` adds exactly `5`. -/
theorem c8_hash_counter_monotone_witness :
    (AtomicStats.new 3 0).total_hashes
        ≤ (applyStatsOp (AtomicStats.new 3 0) .incAccepted).total_hashes ∧
    (applyStatsOp (AtomicStats.new 3 0) (.recordHashes 5 11)).total_hashes = 5 := by
  have h := c8_hash_counter_monotone (AtomicStats.new 3 0)
    (.recordHashes 5 11) (HashrateTracker.mk 0 0 0 0 0 0 0 0 0)
  have h2 := c8_hash_counter_monotone (AtomicStats.new 3 0)
    .incAccepted (HashrateTracker.mk 0 0 0 0 0 0 0 0 0)
  refine ⟨h2.2.1 (fun _ => by simp) (fun n now hx => by cases hx), ?_⟩
  exact h.1 5 11 rfl (by decide)

/-! ### C10: active-work counter arithmetic (confirmed) -/

lemma clear_stale_active (q : LockFreeWorkQueue) (v : Nat) :
    (((q.clear_stale_work v).1.active_work_count : Nat) : ZMod WSIZE)
      = (q.active_work_count : ZMod WSIZE) - (q.clear_stale_work v).2 := by
  simp only [LockFreeWorkQueue.clear_stale_work]
  rw [natCast_wrapDec_iterate]

lemma stepOp_active (q : LockFreeWorkQueue) (op : QOp) :
    (((stepOp q op).active_work_count : Nat) : ZMod WSIZE)
      = (q.active_work_count : ZMod WSIZE) + opE q op - opS op - opP q op := by
  cases op with
  | enq w =>
      by_cases h : q.pending_work.length < q.max_queue_size <;>
        simp [stepOp, LockFreeWorkQueue.enqueue_work, opE, opS, opP, h, natCast_wrapInc]
  | deq =>
      cases hq : q.pending_work <;>
        simp [stepOp, LockFreeWorkQueue.dequeue_work, hq, opE, opS, opP]
  | submit r =>
      simp [stepOp, LockFreeWorkQueue.submit_result, opE, opS, opP, natCast_wrapDec]
  | take =>
      cases hq : q.completed_work <;>
        simp [stepOp, LockFreeWorkQueue.get_result, hq, opE, opS, opP]
  | bump =>
      simp [stepOp, LockFreeWorkQueue.update_work_version, opE, opS, opP]
  | purge v =>
      have h := clear_stale_active q v
      simp only [stepOp, opE, opS, opP, h]
      push_cast
      ring

lemma runCount_active (q : LockFreeWorkQueue) (ops : List QOp) :
    (((runCount q ops).1.active_work_count : Nat) : ZMod WSIZE)
      = (q.active_work_count : ZMod WSIZE) + (runCount q ops).2.1
        - (runCount q ops).2.2.1 - (runCount q ops).2.2.2 := by
  induction ops generalizing q with
  | nil => simp [runCount]
  | cons op ops ih =>
      simp only [runCount]
      rw [ih (stepOp q op), stepOp_active]
      push_cast
      ring

/-- C10: along every trace of queue operations from a fresh queue, the
active-work counter equals (successful enqueues − result submissions −
purged works) modulo `2 ^ 64`; in particular `submit_result` never checks for
a matching enqueue, and calling it when the counter is `0` wraps the counter
to `2 ^ 64 - 1`. -/
theorem c10_active_count_wraps :
    (∀ (cap : Nat) (ops : List QOp),
      (((runCount (LockFreeWorkQueue.new cap) ops).1.active_work_count : Nat) : ZMod WSIZE)
        = ((runCount (LockFreeWorkQueue.new cap) ops).2.1 : ZMod WSIZE)
          - (runCount (LockFreeWorkQueue.new cap) ops).2.2.1
          - (runCount (LockFreeWorkQueue.new cap) ops).2.2.2) ∧
    (∀ (q : LockFreeWorkQueue) (r : MiningResult),
      q.active_work_count = 0 →
      (q.submit_result r).active_work_count = WSIZE - 1) := by
  constructor
  · intro cap ops
    have h := runCount_active (LockFreeWorkQueue.new cap) ops
    simpa [LockFreeWorkQueue.new] using h
  · intro q r h
    simp only [LockFreeWorkQueue.submit_result, wrapDec, h, Nat.zero_add]
    exact Nat.mod_eq_of_lt (Nat.sub_lt wsize_pos Nat.one_pos)

/-- C10 witness: submitting a result to a fresh queue (active count `0`)
wraps the active-work counter to `2 ^ 64 - 1`. -/
theorem c10_active_count_wraps_witness :
    ((LockFreeWorkQueue.new 3).submit_result ⟨0, 0, 0, true⟩).active_work_count
      = WSIZE - 1 :=
  c10_active_count_wraps.2 (LockFreeWorkQueue.new 3) ⟨0, 0, 0, true⟩ rfl

/-! ### C4: push and pull delivery are mixed (corrected) -/

/-- A device with a wired result channel whose queue holds one job. -/
def c4_device : DeviceResultState :=
  { work_queue := ((LockFreeWorkQueue.new 4).enqueue_work ⟨1, 0⟩).1
    has_result_sender := true
    sent_results := [] }

/-- The mining outcome used for the C4 scenario: every job yields a
target-satisfying result. -/
def c4_mine : Work → Option MiningResult :=
  fun w => some ⟨w.id, 0, 42, true⟩

/-- C4 counterexample: on a Worker WITH a result channel wired, `get_result`
returns a result value when the mined candidate satisfies the target —
pull-based retrieval does not always return "no result". -/
theorem c4_pull_returns_result_cex :
    c4_device.has_result_sender = true ∧
    (SoftwareDevice_get_result c4_mine c4_device).2 ≠ none := by
  refine ⟨rfl, ?_⟩
  decide

/-- C4 (amended): `get_result` always performs pull-based retrieval: with an
empty queue it returns no result and changes nothing; otherwise it returns
exactly the mining outcome of the dequeued job, and when a channel is wired
and a result was found that same result is ALSO sent through the channel —
for a channel-wired Worker the push and pull delivery modes are mixed, not
mutually exclusive. -/
theorem c4_push_pull_mixed (mine : Work → Option MiningResult)
    (d : DeviceResultState) :
    (d.work_queue.pending_work = [] →
      SoftwareDevice_get_result mine d = (d, none)) ∧
    ∀ w rest, d.work_queue.pending_work = w :: rest →
      (SoftwareDevice_get_result mine d).2 = mine w ∧
      (d.has_result_sender = true → ∀ r, mine w = some r →
        (SoftwareDevice_get_result mine d).1.sent_results
          = d.sent_results ++ [r]) ∧
      ((d.has_result_sender = false ∨ mine w = none) →
        (SoftwareDevice_get_result mine d).1.sent_results = d.sent_results) := by
  constructor
  · intro h
    simp [SoftwareDevice_get_result, LockFreeWorkQueue.dequeue_work, h]
  · intro w rest h
    refine ⟨?_, ?_, ?_⟩
    · cases hm : mine w <;>
        simp [SoftwareDevice_get_result, LockFreeWorkQueue.dequeue_work, h, hm]
    · intro hs r hm
      simp [SoftwareDevice_get_result, LockFreeWorkQueue.dequeue_work, h, hm, hs]
    · rintro (hs | hm)
      · cases hm : mine w <;>
          simp [SoftwareDevice_get_result, LockFreeWorkQueue.dequeue_work, h, hm, hs]
      · simp [SoftwareDevice_get_result, LockFreeWorkQueue.dequeue_work, h, hm]

/-- C4 witness: with a channel wired and a queue holding job `⟨1, 0⟩`, the
found result `⟨1, 0, 42, true⟩` is both returned by `get_result` and sent
through the channel. -/
theorem c4_push_pull_mixed_witness :
    (SoftwareDevice_get_result c4_mine c4_device).2 = some ⟨1, 0, 42, true⟩ ∧
    (SoftwareDevice_get_result c4_mine c4_device).1.sent_results
      = [⟨1, 0, 42, true⟩] := by
  have h := (c4_push_pull_mixed c4_mine c4_device).2 ⟨1, 0⟩ [] (by decide)
  exact ⟨h.1.trans (by decide), (h.2.1 rfl ⟨1, 0, 42, true⟩ rfl).trans (by decide)⟩

/-! ### C6: exponential-decay throughput estimator (confirmed) -/

lemma update_ema_cases (old_bits current_value alpha : ℚ) :
    HashrateTracker.update_ema old_bits current_value alpha
      = (if old_bits = 0 then current_value
          else old_bits + alpha * (current_value - old_bits)) := by
  unfold HashrateTracker.update_ema
  by_cases h : old_bits = 0 <;> simp [h]

/-- C6: one estimator update tick with elapsed time `elapsed = now − last`
(seconds) and instantaneous rate `current = total_hashes / total_elapsed`:
below the minimum granularity of `1/10` s (or with a non-advancing clock) the
call is a no-op leaving every field, window averages and timestamp included,
unchanged; otherwise each window average `w ∈ {5, 60, 300, 900}` becomes
`avg + (1 − E(−elapsed / w)) · (current − avg)` where `E` is the float
exponential, an average whose stored bits are zero being seeded with the
first observed value `current` instead, and the timestamp becomes `now`. -/
theorem c6_update_averages (E : ℚ → ℚ) (t : HashrateTracker) (now : Nat)
    (elapsed current : ℚ)
    (helapsed : elapsed = ((now - t.last_update_time : Nat) : ℚ) / 1000000000)
    (hcurrent : current = (t.total_hashes : ℚ) / ((now : ℚ) / 1000000000)) :
    ((now ≤ t.last_update_time ∨ elapsed < 1 / 10) →
      HashrateTracker.update_averages E t now = t) ∧
    (t.last_update_time < now → ¬ elapsed < 1 / 10 →
      (HashrateTracker.update_averages E t now).last_update_time = now ∧
      (HashrateTracker.update_averages E t now).total_hashes = t.total_hashes ∧
      (HashrateTracker.update_averages E t now).avg_5s
        = (if t.avg_5s = 0 then current
            else t.avg_5s + (1 - E (-elapsed / 5)) * (current - t.avg_5s)) ∧
      (HashrateTracker.update_averages E t now).avg_1m
        = (if t.avg_1m = 0 then current
            else t.avg_1m + (1 - E (-elapsed / 60)) * (current - t.avg_1m)) ∧
      (HashrateTracker.update_averages E t now).avg_5m
        = (if t.avg_5m = 0 then current
            else t.avg_5m + (1 - E (-elapsed / 300)) * (current - t.avg_5m)) ∧
      (HashrateTracker.update_averages E t now).avg_15m
        = (if t.avg_15m = 0 then current
            else t.avg_15m + (1 - E (-elapsed / 900)) * (current - t.avg_15m))) := by
  subst helapsed hcurrent
  constructor
  · rintro (h | h)
    · simp [HashrateTracker.update_averages, h]
    · by_cases h1 : now ≤ t.last_update_time
      · simp [HashrateTracker.update_averages, h1]
      · simp only [HashrateTracker.update_averages, if_neg h1]
        split_ifs
        all_goals rfl
  · intro h1 h2
    have h1' : ¬ now ≤ t.last_update_time := not_le.mpr h1
    have hn : (0 : ℚ) < (now : ℚ) := by
      exact_mod_cast lt_of_le_of_lt (Nat.zero_le _) h1
    have h3 : ¬ ((now : ℚ) / 1000000000 ≤ 0) := by
      rw [not_le]
      positivity
    refine ⟨?_, ?_, ?_, ?_, ?_, ?_⟩ <;>
      simp only [HashrateTracker.update_averages, if_neg h1', if_neg h2, if_neg h3] <;>
      exact update_ema_cases _ _ _

/-- C6 witness: a tracker with 5 total hashes, an unseeded 5-second window and
a 1-minute window at 7, updated after one second with `E` instantiated to the
zero function (`alpha = 1`): the unseeded window seeds to the current rate `5`
and the seeded window decays fully onto `5`. -/
theorem c6_update_averages_witness :
    (HashrateTracker.update_averages (fun _ => 0) ⟨5, 0, 0, 7, 0, 0, 0, 0, 0⟩
        1000000000).last_update_time = 1000000000 ∧
    (HashrateTracker.update_averages (fun _ => 0) ⟨5, 0, 0, 7, 0, 0, 0, 0, 0⟩
        1000000000).avg_5s = 5 ∧
    (HashrateTracker.update_averages (fun _ => 0) ⟨5, 0, 0, 7, 0, 0, 0, 0, 0⟩
        1000000000).avg_1m = 5 := by
  have h := (c6_update_averages (fun _ => 0) ⟨5, 0, 0, 7, 0, 0, 0, 0, 0⟩
      1000000000 1 5 (by norm_num) (by norm_num)).2 (by norm_num) (by norm_num)
  refine ⟨h.1, ?_, ?_⟩
  · rw [h.2.2.1]; norm_num
  · rw [h.2.2.2.1]; norm_num

/-! ### C1: capacity overflow end-to-end (confirmed) -/

lemma enqueueMany_append (q : LockFreeWorkQueue) (l1 l2 : List Work) :
    enqueueMany q (l1 ++ l2) =
      ((enqueueMany (enqueueMany q l1).1 l2).1,
        (enqueueMany q l1).2 ++ (enqueueMany (enqueueMany q l1).1 l2).2) := by
  induction l1 generalizing q with
  | nil => simp [enqueueMany]
  | cons w ws ih => simp [enqueueMany, ih]

lemma enqueueMany_all_ok (ws : List Work) :
    ∀ (q : LockFreeWorkQueue),
      q.pending_work.length + ws.length ≤ q.max_queue_size →
      q.active_work_count < WSIZE → q.total_enqueued < WSIZE →
      enqueueMany q ws =
        ({ q with
            pending_work := q.pending_work ++ ws
            active_work_count := (q.active_work_count + ws.length) % WSIZE
            total_enqueued := (q.total_enqueued + ws.length) % WSIZE },
          List.replicate ws.length none) := by
  induction ws with
  | nil =>
      intro q _ ha he
      simp [enqueueMany, Nat.mod_eq_of_lt ha, Nat.mod_eq_of_lt he]
  | cons w ws ih =>
      intro q hcap ha he
      have hlt : q.pending_work.length < q.max_queue_size := by
        simp only [List.length_cons] at hcap; omega
      simp only [enqueueMany, LockFreeWorkQueue.enqueue_work, if_pos hlt]
      rw [ih _ (by simp only [List.length_append, List.length_cons,
            List.length_nil, List.length_cons] at hcap ⊢; omega)
          (wrapInc_lt _) (wrapInc_lt _)]
      simp only [wrapInc, Nat.mod_add_mod, List.replicate_succ,
        List.append_assoc, List.singleton_append, List.length_cons]
      refine Prod.ext ?_ rfl
      simp only [LockFreeWorkQueue.mk.injEq, and_true, true_and]
      constructor <;> · congr 1; omega

lemma dequeueMany_drain (l : List Work) :
    ∀ (q : LockFreeWorkQueue), q.pending_work = l →
      q.total_dequeued < WSIZE →
      dequeueMany q (l.length + 1) =
        ({ q with
            pending_work := []
            total_dequeued := (q.total_dequeued + l.length) % WSIZE },
          l.map some ++ [none]) := by
  induction l with
  | nil =>
      intro q hq hd
      obtain ⟨p, cw, a, e, d, f, v, m⟩ := q
      simp only at hq
      subst hq
      simp [dequeueMany, LockFreeWorkQueue.dequeue_work, Nat.mod_eq_of_lt hd]
  | cons w ws ih =>
      intro q hq hd
      have hstep : q.dequeue_work =
          ({ q with pending_work := ws, total_dequeued := wrapInc q.total_dequeued },
            some w) := by
        simp [LockFreeWorkQueue.dequeue_work, hq]
      have hrec := ih ({ q with pending_work := ws, total_dequeued := wrapInc q.total_dequeued }) rfl (wrapInc_lt _)
      have hun : dequeueMany q (ws.length + 1 + 1)
          = ((dequeueMany q.dequeue_work.1 (ws.length + 1)).1,
              q.dequeue_work.2 :: (dequeueMany q.dequeue_work.1 (ws.length + 1)).2) :=
        rfl
      rw [List.length_cons, hun, hstep]
      dsimp only
      rw [hrec]
      refine Prod.ext ?_ rfl
      simp only [wrapInc, Nat.mod_add_mod, LockFreeWorkQueue.mk.injEq,
        and_true, true_and]
      congr 1
      omega

/-- C1: for every capacity `C` (positive, in `usize` range) and every list of
`C + 1` jobs, enqueuing them into a fresh queue accepts the first `C` and
rejects exactly the last one, returning it to the caller and leaving the
full-rejection counter at `1`; the `C` stored jobs are then returned, in
order, by successive dequeues followed by `none`, and the final stats
snapshot reads `pending = 0`, `total_enqueued = C`, `total_dequeued = C`,
`queue_full_count = 1`. -/
theorem c1_capacity_overflow (C : Nat) (_hC : 0 < C) (hW : C < WSIZE)
    (jobs : List Work) (hlen : jobs.length = C + 1) :
    (enqueueMany (LockFreeWorkQueue.new C) jobs).2
        = List.replicate C none ++ (jobs.drop C).map some ∧
    (LockFreeWorkQueue.get_stats
        (enqueueMany (LockFreeWorkQueue.new C) jobs).1).queue_full_count = 1 ∧
    (dequeueMany (enqueueMany (LockFreeWorkQueue.new C) jobs).1 (C + 1)).2
        = (jobs.take C).map some ++ [none] ∧
    LockFreeWorkQueue.get_stats
        (dequeueMany (enqueueMany (LockFreeWorkQueue.new C) jobs).1 (C + 1)).1
      = { pending_count := 0, active_count := C, completed_count := 0,
          total_enqueued := C, total_dequeued := C, queue_full_count := 1,
          current_version := 0, max_queue_size := C } := by
  have htake : (jobs.take C).length = C := by
    rw [List.length_take, hlen]; omega
  obtain ⟨j, hj⟩ : ∃ j, jobs.drop C = [j] := by
    have : (jobs.drop C).length = 1 := by
      rw [List.length_drop, hlen]; omega
    exact List.length_eq_one.mp this
  have hjobs : jobs = jobs.take C ++ [j] := by
    conv_lhs => rw [← List.take_append_drop C jobs]
    rw [hj]
  have hA := enqueueMany_all_ok (jobs.take C) (LockFreeWorkQueue.new C)
    (by simp [LockFreeWorkQueue.new, htake]) (by simp [LockFreeWorkQueue.new, WSIZE])
    (by simp [LockFreeWorkQueue.new, WSIZE])
  have hA' : enqueueMany (LockFreeWorkQueue.new C) (jobs.take C) =
      ({ pending_work := jobs.take C, completed_work := [],
         active_work_count := C, total_enqueued := C, total_dequeued := 0,
         queue_full_count := 0, current_work_version := 0, max_queue_size := C },
        List.replicate C none) := by
    rw [hA]
    simp [LockFreeWorkQueue.new, htake, Nat.mod_eq_of_lt hW]
  have hone : (1 : Nat) < WSIZE := by norm_num [WSIZE]
  have hB : enqueueMany (LockFreeWorkQueue.new C) jobs =
      ({ pending_work := jobs.take C, completed_work := [],
         active_work_count := C, total_enqueued := C, total_dequeued := 0,
         queue_full_count := 1, current_work_version := 0, max_queue_size := C },
        List.replicate C none ++ [some j]) := by
    conv_lhs => rw [hjobs]
    rw [enqueueMany_append, hA']
    simp [enqueueMany, LockFreeWorkQueue.enqueue_work, htake, wrapInc,
      Nat.mod_eq_of_lt hone]
  have hD := dequeueMany_drain (jobs.take C)
    { pending_work := jobs.take C, completed_work := [],
      active_work_count := C, total_enqueued := C, total_dequeued := 0,
      queue_full_count := 1, current_work_version := 0, max_queue_size := C }
    rfl wsize_pos
  rw [htake] at hD
  refine ⟨?_, ?_, ?_, ?_⟩
  · rw [hB, hj]; rfl
  · rw [hB]; rfl
  · rw [hB, hD]
  · rw [hB, hD]
    simp [LockFreeWorkQueue.get_stats, Nat.mod_eq_of_lt hW]

/-- C1 witness: the spec's end-to-end example with capacity 2 and jobs
A, B, C: A and B are accepted, C is rejected and returned, dequeues yield
A, B, `none`, and the stats read `pending = 0`, `total_enqueued = 2`,
`total_dequeued = 2`, `queue_full_count = 1`. -/
theorem c1_capacity_overflow_witness :
    (enqueueMany (LockFreeWorkQueue.new 2) [⟨1, 0⟩, ⟨2, 0⟩, ⟨3, 0⟩]).2
        = [none, none, some ⟨3, 0⟩] ∧
    (dequeueMany (enqueueMany (LockFreeWorkQueue.new 2)
        [⟨1, 0⟩, ⟨2, 0⟩, ⟨3, 0⟩]).1 3).2
        = [some ⟨1, 0⟩, some ⟨2, 0⟩, none] ∧
    LockFreeWorkQueue.get_stats
        (dequeueMany (enqueueMany (LockFreeWorkQueue.new 2)
          [⟨1, 0⟩, ⟨2, 0⟩, ⟨3, 0⟩]).1 3).1
      = { pending_count := 0, active_count := 2, completed_count := 0,
          total_enqueued := 2, total_dequeued := 2, queue_full_count := 1,
          current_version := 0, max_queue_size := 2 } := by
  have h := c1_capacity_overflow 2 (by decide) (by decide)
    [⟨1, 0⟩, ⟨2, 0⟩, ⟨3, 0⟩] (by decide)
  exact ⟨h.1.trans (by decide), h.2.2.1.trans (by decide), h.2.2.2⟩
